import Mathlib

/-!
Verification of the selection-scrolling viewport algorithm of
`src/widgets/separated_list/viewport.rs` (crate `extra_widgets`).

The Rust code is shallowly embedded: `SelState`, `Window` and the driving
loop of `selection_scroll` are translated field by field; the bounded FIFO
buffer (`BoundedVecDeque` of capacity `size`) is a `List` together with the
eviction discipline of `pushBack`.  Machine integers (`usize`) are modelled
as `Nat`; the indices involved only ever grow by `+ 1` from `0`, so no
overflow wrapping is observable for any input a caller can produce.
-/

set_option maxHeartbeats 1000000

namespace ViewportModel

/-- Modelled from the spec: `DisplayLine` lives in the `line_iters` module,
which is not part of the sources given; per the spec's data model it is an
opaque renderable payload (here the type parameter `α`, standing for the
style/text content the algorithm never inspects) together with the
`must_display : bool` selection flag.  This matches every use site in
`viewport.rs` and its tests. -/
structure DisplayLine (α : Type) where
  line : α
  must_display : Bool
deriving DecidableEq, Repr

/-- The three-state selection tracker `SelState` of `viewport.rs`. -/
inductive SelState where
  | NotSeen
  | Started (i : Nat)
  | Complete
deriving DecidableEq, Repr

/-- `SelState::toggle(&mut self, sel, index)`: `(NotSeen, true) => Started(index)`,
`(Started(_), false) => Complete`, anything else unchanged. -/
def SelState.toggle : SelState → Bool → Nat → SelState
  | SelState.NotSeen, true, index => SelState.Started index
  | SelState.Started _, false, _ => SelState.Complete
  | s, _, _ => s

/-- Rank of a selection state in the monotone order NotSeen → Started → Complete. -/
def SelState.rank : SelState → Nat
  | SelState.NotSeen => 0
  | SelState.Started _ => 1
  | SelState.Complete => 2

/-- The scroll window controller struct `Window` of `viewport.rs`. -/
structure Window where
  goal_first_index : Nat
  curr_first_index : Nat
  size : Nat
  fixed : Option Nat
deriving DecidableEq, Repr

/-- `Window::new(size, prev_pos)`. -/
def Window.new (size prev_pos : Nat) : Window :=
  { goal_first_index := prev_pos, curr_first_index := 0, size := size, fixed := none }

/-- `Window::fix(&mut self, state)`: sets `fixed` to `Some(i)` the first time
the state is `Started(i)`; otherwise unchanged. -/
def Window.fix (w : Window) (state : SelState) : Window :=
  match w.fixed, state with
  | none, SelState.Started i => { w with fixed := some i }
  | _, _ => w

/-- `Window::advance`: bump `goal_first_index` when aligned, always bump
`curr_first_index`. -/
def Window.advance (w : Window) : Window :=
  { w with
    goal_first_index :=
      if w.goal_first_index = w.curr_first_index then w.goal_first_index + 1
      else w.goal_first_index,
    curr_first_index := w.curr_first_index + 1 }

/-- `Window::is_aligned`. -/
def Window.is_aligned (w : Window) : Bool :=
  decide (w.goal_first_index = w.curr_first_index)

/-- `Window::can_advance`. -/
def Window.can_advance (w : Window) : Bool :=
  match w.fixed with
  | some s => decide (w.curr_first_index < s)
  | none => true

/-- `BoundedVecDeque::push_back` on a deque of maximum length `size`:
appends, evicting the oldest element when full; a deque bounded at `0`
stores nothing. -/
def pushBack {β : Type} (size : Nat) (buf : List β) (x : β) : List β :=
  if size = 0 then buf
  else if buf.length < size then buf ++ [x]
  else buf.drop 1 ++ [x]

/-- Final configuration of the driving loop of `selection_scroll`: the
window and tracker as left behind, the buffered viewport slice (the
function's return value), and the index of the first input line that was
not pushed into the buffer (bookkeeping used by the theorems below). -/
structure ScrollResult (α : Type) where
  window : Window
  state : SelState
  buffer : List (DisplayLine α)
  stop_index : Nat
deriving DecidableEq, Repr

/-- The `for (i, l) in items.into_iter().enumerate()` loop of
`selection_scroll`, with the `break` statements modelled as returning the
current configuration. -/
def scrollLoop {α : Type} (size : Nat) :
    List (DisplayLine α) → Nat → Window → SelState → List (DisplayLine α) →
    ScrollResult α
  | [], i, w, st, buf => ⟨w, st, buf, i⟩
  | l :: rest, i, w, st, buf =>
    let st' := st.toggle l.must_display i
    let w' := w.fix st'
    if buf.length < size then
      scrollLoop size rest (i + 1) w' st' (pushBack size buf l)
    else
      match st' with
      | SelState.NotSeen =>
          scrollLoop size rest (i + 1) w'.advance st' (pushBack size buf l)
      | SelState.Started _ =>
          if w'.can_advance then
            scrollLoop size rest (i + 1) w'.advance st' (pushBack size buf l)
          else ⟨w', st', buf, i⟩
      | SelState.Complete =>
          if w'.is_aligned then ⟨w', st', buf, i⟩
          else if w'.can_advance then
            scrollLoop size rest (i + 1) w'.advance st' (pushBack size buf l)
          else ⟨w', st', buf, i⟩

/-- One full pass of `selection_scroll(items, window_size, window_pos)`,
keeping the whole final configuration. -/
def scrollRun {α : Type} (items : List (DisplayLine α))
    (window_size window_pos : Nat) : ScrollResult α :=
  scrollLoop window_size items 0 (Window.new window_size window_pos)
    SelState.NotSeen []

/-- `selection_scroll(items, window_size, window_pos)`: the buffered lines
the iterator yields. -/
def selection_scroll {α : Type} (items : List (DisplayLine α))
    (window_size window_pos : Nat) : List (DisplayLine α) :=
  (scrollRun items window_size window_pos).buffer

/-- Iterated `Window::advance`. -/
def advanceIter (w : Window) : Nat → Window
  | 0 => w
  | n + 1 => (advanceIter w n).advance

/-- Index of the first line flagged `must_display`, counting from base `i`. -/
def firstTrueFrom {α : Type} (i : Nat) : List (DisplayLine α) → Option Nat
  | [] => none
  | l :: rest => if l.must_display then some i else firstTrueFrom (i + 1) rest

/-- Index of the first line flagged `must_display`. -/
def firstTrue {α : Type} (items : List (DisplayLine α)) : Option Nat :=
  firstTrueFrom 0 items

end ViewportModel

namespace ViewportModel

lemma advanceIter_spec (size p n : Nat) :
    (advanceIter (Window.new size p) n).curr_first_index = n ∧
    (advanceIter (Window.new size p) n).goal_first_index = max p n := by
  induction n with
  | zero => simp [advanceIter, Window.new]
  | succ n ih =>
    obtain ⟨hc, hg⟩ := ih
    refine ⟨by simp [advanceIter, Window.advance, hc], ?_⟩
    simp only [advanceIter, Window.advance, hc, hg]
    split <;> omega

/-- C10: a `Window` built by `Window::new(size, prev_pos)` and driven by any
number of `advance()` calls keeps `curr_first_index ≤ goal_first_index`;
each `advance()` increments `curr_first_index` by exactly one, and it
increments `goal_first_index` exactly when the two indices are equal. -/
theorem claim_C10 (size p n : Nat) :
    (advanceIter (Window.new size p) n).curr_first_index = n ∧
    (advanceIter (Window.new size p) n).curr_first_index ≤
      (advanceIter (Window.new size p) n).goal_first_index ∧
    (advanceIter (Window.new size p) (n + 1)).curr_first_index =
      (advanceIter (Window.new size p) n).curr_first_index + 1 ∧
    (advanceIter (Window.new size p) (n + 1)).goal_first_index =
      (if (advanceIter (Window.new size p) n).goal_first_index =
          (advanceIter (Window.new size p) n).curr_first_index
       then (advanceIter (Window.new size p) n).goal_first_index + 1
       else (advanceIter (Window.new size p) n).goal_first_index) := by
  obtain ⟨hc, hg⟩ := advanceIter_spec size p n
  obtain ⟨hc', hg'⟩ := advanceIter_spec size p (n + 1)
  refine ⟨hc, ?_, ?_, ?_⟩
  · rw [hc, hg]; omega
  · rw [hc, hc']
  · rw [hg, hg', hc]
    by_cases h : max p n = n
    · rw [if_pos h]; omega
    · rw [if_neg h]; omega

/-- C6: `SelState::toggle` implements exactly the stated transition table
(`NotSeen` + selected goes to `Started(index)`, `Started` + unselected goes
to `Complete`, every other combination is a no-op, `Complete` is absorbing),
and the state rank `NotSeen < Started < Complete` is monotone along any
stream of toggles, so the state never reverts. -/
theorem claim_C6 :
    (∀ i : Nat, SelState.NotSeen.toggle true i = SelState.Started i) ∧
    (∀ j i : Nat, (SelState.Started j).toggle false i = SelState.Complete) ∧
    (∀ i : Nat, SelState.NotSeen.toggle false i = SelState.NotSeen) ∧
    (∀ j i : Nat, (SelState.Started j).toggle true i = SelState.Started j) ∧
    (∀ (b : Bool) (i : Nat), SelState.Complete.toggle b i = SelState.Complete) ∧
    (∀ (s : SelState) (b : Bool) (i : Nat), s.rank ≤ (s.toggle b i).rank) ∧
    (∀ (s : SelState) (steps : List (Bool × Nat)),
      s.rank ≤ (steps.foldl (fun t q => t.toggle q.1 q.2) s).rank) := by
  have hstep : ∀ (s : SelState) (b : Bool) (i : Nat), s.rank ≤ (s.toggle b i).rank := by
    intro s b i
    cases s <;> cases b <;> simp [SelState.toggle, SelState.rank]
  refine ⟨fun i => rfl, fun j i => rfl, fun i => rfl, fun j i => rfl,
    fun b i => by cases b <;> rfl, hstep, ?_⟩
  intro s steps
  induction steps generalizing s with
  | nil => exact le_refl _
  | cons q steps ih =>
    exact le_trans (hstep s q.1 q.2) (ih (s.toggle q.1 q.2))

/-- The 10-line alphabet list of the repository's tests, with lines `d..g`
(indices 3..6) flagged as selected. -/
def abcLines : List (DisplayLine Char) :=
  [⟨'a', false⟩, ⟨'b', false⟩, ⟨'c', false⟩, ⟨'d', true⟩, ⟨'e', true⟩,
    ⟨'f', true⟩, ⟨'g', true⟩, ⟨'h', false⟩, ⟨'i', false⟩, ⟨'j', false⟩]

/-- C7: on the alphabet list `a..j` with selected indices `{3,4,5,6}` (a run
longer than the window), `size = 3` and `prev_pos = 5`, `selection_scroll`
returns exactly `[d, e, f]`, all flagged `must_display` — anchored at the
selection start, not at `prev_pos`. -/
theorem claim_C7 :
    selection_scroll abcLines 3 5 = [⟨'d', true⟩, ⟨'e', true⟩, ⟨'f', true⟩] := by
  decide

lemma scrollLoop_zero_buffer {α : Type} :
    ∀ (rest : List (DisplayLine α)) (i : Nat) (w : Window) (st : SelState),
      (scrollLoop 0 rest i w st []).buffer = [] := by
  intro rest
  induction rest with
  | nil => intro i w st; rfl
  | cons l rest ih =>
    intro i w st
    simp only [scrollLoop, List.length_nil, Nat.lt_irrefl, if_false, pushBack,
      if_pos rfl]
    cases hst : st.toggle l.must_display i with
    | NotSeen => exact ih (i + 1) _ _
    | Started j =>
      by_cases hca : (w.fix (SelState.Started j)).can_advance = true
      · rw [if_pos hca]; exact ih (i + 1) _ _
      · rw [if_neg hca]
    | Complete =>
      by_cases hal : (w.fix SelState.Complete).is_aligned = true
      · rw [if_pos hal]
      · rw [if_neg hal]
        by_cases hca : (w.fix SelState.Complete).can_advance = true
        · rw [if_pos hca]; exact ih (i + 1) _ _
        · rw [if_neg hca]

/-- C9: calling `selection_scroll` with `size = 0` returns an empty result
(and, the model being a total function, does not fault) for every input and
every `prev_pos`. -/
theorem claim_C9 {α : Type} (items : List (DisplayLine α)) (p : Nat) :
    selection_scroll items 0 p = [] :=
  scrollLoop_zero_buffer items 0 (Window.new 0 p) SelState.NotSeen

end ViewportModel

namespace ViewportModel

lemma fix_goal (w : Window) (st : SelState) :
    (w.fix st).goal_first_index = w.goal_first_index := by
  simp only [Window.fix]
  split <;> rfl

lemma fix_curr (w : Window) (st : SelState) :
    (w.fix st).curr_first_index = w.curr_first_index := by
  simp only [Window.fix]
  split <;> rfl

lemma fix_of_some (w : Window) (st : SelState) (s : Nat)
    (h : w.fixed = some s) : w.fix st = w := by
  cases st <;> simp [Window.fix, h]

lemma fix_fixed_of_some (w : Window) (st : SelState) (s : Nat)
    (h : w.fixed = some s) : (w.fix st).fixed = some s := by
  rw [fix_of_some w st s h, h]

lemma fix_fixed_none_started (w : Window) (j : Nat) (h : w.fixed = none) :
    (w.fix (SelState.Started j)).fixed = some j := by
  simp [Window.fix, h]

lemma fix_notseen (w : Window) : w.fix SelState.NotSeen = w := by
  cases hf : w.fixed <;> simp [Window.fix, hf]

lemma fix_complete (w : Window) : w.fix SelState.Complete = w := by
  cases hf : w.fixed <;> simp [Window.fix, hf]

lemma advance_curr (w : Window) :
    w.advance.curr_first_index = w.curr_first_index + 1 := rfl

lemma advance_fixed (w : Window) : w.advance.fixed = w.fixed := rfl

lemma advance_goal_max (w : Window) (p : Nat)
    (h : w.goal_first_index = max p w.curr_first_index) :
    w.advance.goal_first_index = max p w.advance.curr_first_index := by
  simp only [Window.advance]
  split <;> omega

lemma can_advance_iff (w : Window) (s : Nat) (h : w.fixed = some s) :
    w.can_advance = true ↔ w.curr_first_index < s := by
  simp [Window.can_advance, h]

lemma is_aligned_iff (w : Window) :
    w.is_aligned = true ↔ w.goal_first_index = w.curr_first_index := by
  simp [Window.is_aligned]

lemma pushBack_of_lt {β : Type} (size : Nat) (buf : List β) (x : β)
    (h : buf.length < size) : pushBack size buf x = buf ++ [x] := by
  rw [pushBack, if_neg (by omega), if_pos h]

lemma pushBack_of_full {β : Type} (size : Nat) (buf : List β) (x : β)
    (hsz : size ≠ 0) (h : ¬ buf.length < size) :
    pushBack size buf x = buf.drop 1 ++ [x] := by
  rw [pushBack, if_neg hsz, if_neg h]

lemma pushBack_zero {β : Type} (buf : List β) (x : β) : pushBack 0 buf x = buf :=
  if_pos rfl

lemma firstTrueFrom_append_of_some {α : Type} :
    ∀ (xs ys : List (DisplayLine α)) (i s : Nat),
      firstTrueFrom i xs = some s → firstTrueFrom i (xs ++ ys) = some s := by
  intro xs
  induction xs with
  | nil => intro ys i s h; exact absurd h (by simp [firstTrueFrom])
  | cons l xs ih =>
    intro ys i s h
    simp only [firstTrueFrom, List.cons_append] at h ⊢
    by_cases hd : l.must_display = true
    · rwa [if_pos hd] at h ⊢
    · rw [if_neg hd] at h ⊢
      exact ih ys (i + 1) s h

lemma firstTrueFrom_append_one_of_none {α : Type} :
    ∀ (xs : List (DisplayLine α)) (l : DisplayLine α) (i : Nat),
      firstTrueFrom i xs = none →
      firstTrueFrom i (xs ++ [l]) =
        (if l.must_display then some (i + xs.length) else none) := by
  intro xs
  induction xs with
  | nil => intro l i _; simp [firstTrueFrom]
  | cons x xs ih =>
    intro l i h
    simp only [firstTrueFrom] at h
    by_cases hd : x.must_display = true
    · rw [if_pos hd] at h; exact absurd h (by simp)
    · rw [if_neg hd] at h
      show firstTrueFrom i ((x :: xs) ++ [l]) = _
      rw [List.cons_append]
      show (if x.must_display = true then some i
            else firstTrueFrom (i + 1) (xs ++ [l])) = _
      rw [if_neg hd, ih l (i + 1) h]
      by_cases hl : l.must_display = true
      · rw [if_pos hl, if_pos hl]
        congr 1
        simp only [List.length_cons]
        omega
      · rw [if_neg hl, if_neg hl]

lemma firstTrueFrom_none_of_append {α : Type}
    (xs ys : List (DisplayLine α)) (i : Nat)
    (h : firstTrueFrom i (xs ++ ys) = none) : firstTrueFrom i xs = none := by
  cases hx : firstTrueFrom i xs with
  | none => rfl
  | some s => rw [firstTrueFrom_append_of_some xs ys i s hx] at h; exact absurd h (by simp)

lemma firstTrueFrom_bound {α : Type} :
    ∀ (xs : List (DisplayLine α)) (i s : Nat),
      firstTrueFrom i xs = some s → i ≤ s ∧ s < i + xs.length := by
  intro xs
  induction xs with
  | nil => intro i s h; exact absurd h (by simp [firstTrueFrom])
  | cons l xs ih =>
    intro i s h
    simp only [firstTrueFrom] at h
    by_cases hd : l.must_display = true
    · rw [if_pos hd] at h
      cases h
      simp
    · rw [if_neg hd] at h
      have := ih (i + 1) s h
      constructor
      · omega
      · simp only [List.length_cons]
        omega

lemma firstTrue_bound {α : Type} (xs : List (DisplayLine α)) (s : Nat)
    (h : firstTrue xs = some s) : s < xs.length := by
  have := firstTrueFrom_bound xs 0 s h
  omega

lemma firstTrue_append_of_some {α : Type} (xs ys : List (DisplayLine α)) (s : Nat)
    (h : firstTrue xs = some s) : firstTrue (xs ++ ys) = some s :=
  firstTrueFrom_append_of_some xs ys 0 s h

lemma firstTrue_none_of_append {α : Type} (xs ys : List (DisplayLine α))
    (h : firstTrue (xs ++ ys) = none) : firstTrue xs = none :=
  firstTrueFrom_none_of_append xs ys 0 h

/-- Relation maintained between the scanned prefix of the input and the
`SelState` value of the tracker. -/
def StRel {α : Type} (pre : List (DisplayLine α)) : SelState → Prop
  | SelState.NotSeen => firstTrue pre = none
  | SelState.Started s => firstTrue pre = some s
  | SelState.Complete =>
      ∃ s j lf, firstTrue pre = some s ∧ s < j ∧ pre[j]? = some lf ∧
        lf.must_display = false

lemma StRel_step {α : Type} (pre : List (DisplayLine α)) (st : SelState)
    (l : DisplayLine α) (h : StRel pre st) :
    StRel (pre ++ [l]) (st.toggle l.must_display pre.length) := by
  cases st with
  | NotSeen =>
    cases hd : l.must_display with
    | true =>
      show StRel (pre ++ [l]) (SelState.Started pre.length)
      show firstTrue (pre ++ [l]) = some pre.length
      have := firstTrueFrom_append_one_of_none pre l 0 h
      rw [hd] at this
      simpa using this
    | false =>
      show StRel (pre ++ [l]) SelState.NotSeen
      show firstTrue (pre ++ [l]) = none
      have := firstTrueFrom_append_one_of_none pre l 0 h
      rw [hd] at this
      simpa using this
  | Started s =>
    cases hd : l.must_display with
    | true =>
      show StRel (pre ++ [l]) (SelState.Started s)
      exact firstTrue_append_of_some pre [l] s h
    | false =>
      show StRel (pre ++ [l]) SelState.Complete
      refine ⟨s, pre.length, l, firstTrue_append_of_some pre [l] s h, ?_, ?_, hd⟩
      · exact firstTrue_bound pre s h
      · rw [List.getElem?_append_right (le_refl pre.length)]
        simp
  | Complete =>
    obtain ⟨s, j, lf, hs, hsj, hget, hflag⟩ := h
    have hjlen : j < pre.length := by
      rw [List.getElem?_eq_some] at hget
      exact hget.1
    refine ⟨s, j, lf, firstTrue_append_of_some pre [l] s hs, hsj, ?_, hflag⟩
    rw [List.getElem?_append_left hjlen]
    exact hget

lemma fix_fixed_rel {α : Type} (pre : List (DisplayLine α)) (l : DisplayLine α)
    (w : Window) (st : SelState)
    (h4 : w.fixed = firstTrue pre) (h5 : StRel pre st) :
    (w.fix (st.toggle l.must_display pre.length)).fixed = firstTrue (pre ++ [l]) := by
  have h5' := StRel_step pre st l h5
  cases hst : st.toggle l.must_display pre.length with
  | NotSeen =>
    rw [hst] at h5'
    have hnone : firstTrue (pre ++ [l]) = none := h5'
    rw [fix_notseen, h4, firstTrue_none_of_append pre [l] hnone, hnone]
  | Started j =>
    rw [hst] at h5'
    have hsome : firstTrue (pre ++ [l]) = some j := h5'
    cases hf : w.fixed with
    | none => rw [fix_fixed_none_started w j hf, hsome]
    | some x =>
      rw [fix_fixed_of_some w _ x hf]
      have hx : firstTrue (pre ++ [l]) = some x :=
        firstTrue_append_of_some pre [l] x (by rw [← h4]; exact hf)
      rw [hx]
  | Complete =>
    cases hf : w.fixed with
    | some x =>
      rw [fix_fixed_of_some w _ x hf]
      have hx : firstTrue (pre ++ [l]) = some x :=
        firstTrue_append_of_some pre [l] x (by rw [← h4]; exact hf)
      rw [hx]
    | none =>
      exfalso
      have hnone : firstTrue pre = none := by rw [← h4]; exact hf
      cases st with
      | NotSeen =>
        cases hd : l.must_display <;> rw [hd] at hst <;>
          simp [SelState.toggle] at hst
      | Started s0 =>
        have hps : firstTrue pre = some s0 := h5
        rw [hnone] at hps
        cases hps
      | Complete =>
        obtain ⟨s1, j1, l1, hs1, _, _, _⟩ := h5
        rw [hnone] at hs1
        cases hs1

/-- Everything the one-pass scan guarantees about its final configuration:
the goal index tracks `max prev_pos curr`; `curr` equals
`stop - min stop size`; the buffer is the contiguous slice of the scanned
prefix starting at `curr`; a set anchor is the global first selected index,
is at most `curr`... and at least it when the scan stopped on the anchor;
and the scan either exhausted the input, stopped with `curr` at the anchor,
or stopped aligned after the selection run had already ended. -/
def MasterPost {α : Type} (size p : Nat) (items : List (DisplayLine α))
    (i0 : Nat) (res : ScrollResult α) : Prop :=
  res.window.goal_first_index = max p res.window.curr_first_index ∧
  res.window.curr_first_index = res.stop_index - min res.stop_index size ∧
  res.buffer = (items.take res.stop_index).drop res.window.curr_first_index ∧
  i0 ≤ res.stop_index ∧ res.stop_index ≤ items.length ∧
  (∀ s, res.window.fixed = some s →
    res.window.curr_first_index ≤ s ∧ firstTrue items = some s) ∧
  (∀ s, firstTrue items = some s → 1 ≤ size →
    res.window.fixed = some s ∧ s < res.stop_index) ∧
  (res.stop_index = items.length ∨
   (∃ s, res.window.fixed = some s ∧ s ≤ res.window.curr_first_index) ∨
   (∃ s j lf, res.window.fixed = some s ∧ s < j ∧ j ≤ res.stop_index ∧
      items[j]? = some lf ∧ lf.must_display = false ∧
      res.window.goal_first_index = res.window.curr_first_index))

end ViewportModel

namespace ViewportModel

lemma drop_append_small {β : Type} (xs ys : List β) (n : Nat) (h : n ≤ xs.length) :
    (xs ++ ys).drop n = xs.drop n ++ ys := by
  rw [List.drop_append_eq_append_drop, Nat.sub_eq_zero_of_le h, List.drop_zero]

lemma MasterPost_mono {α : Type} {size p : Nat} {items : List (DisplayLine α)}
    {i0 i1 : Nat} {res : ScrollResult α} (h : i1 ≤ i0)
    (hm : MasterPost size p items i0 res) : MasterPost size p items i1 res := by
  obtain ⟨c1, c2, c3, c4, c5, c6, c7, c8⟩ := hm
  exact ⟨c1, c2, c3, le_trans h c4, c5, c6, c7, c8⟩

lemma scrollLoop_master {α : Type} (size p : Nat) :
    ∀ (rest pre buf : List (DisplayLine α)) (w : Window) (st : SelState),
      w.goal_first_index = max p w.curr_first_index →
      w.curr_first_index = pre.length - min pre.length size →
      buf = pre.drop w.curr_first_index →
      w.fixed = firstTrue pre →
      StRel pre st →
      (∀ s, w.fixed = some s → w.curr_first_index ≤ s) →
      MasterPost size p (pre ++ rest) pre.length
        (scrollLoop size rest pre.length w st buf) := by
  intro rest
  induction rest with
  | nil =>
    intro pre buf w st h1 h2 h3 h4 h5 h6
    simp only [scrollLoop, MasterPost]
    refine ⟨h1, h2, ?_, le_refl _, by simp, ?_, ?_, Or.inl (by simp)⟩
    · rw [List.append_nil, List.take_length]
      exact h3
    · intro s hs
      refine ⟨h6 s hs, ?_⟩
      rw [List.append_nil, ← h4]
      exact hs
    · intro s hs _
      rw [List.append_nil] at hs
      refine ⟨by rw [h4]; exact hs, firstTrue_bound pre s hs⟩
  | cons l rest ih =>
    intro pre buf w st h1 h2 h3 h4 h5 h6
    have hminle : min pre.length size ≤ pre.length := Nat.min_le_left _ _
    have hcle : w.curr_first_index ≤ pre.length := by omega
    have hblen : buf.length = min pre.length size := by
      rw [h3, List.length_drop]
      omega
    have h5' := StRel_step pre st l h5
    have hfixw : (w.fix (st.toggle l.must_display pre.length)).fixed
        = firstTrue (pre ++ [l]) := fix_fixed_rel pre l w st h4 h5
    have hlen1 : (pre ++ [l]).length = pre.length + 1 := by simp
    have hitems : (pre ++ [l]) ++ rest = pre ++ l :: rest := by simp
    simp only [scrollLoop]
    by_cases hfill : buf.length < size
    · rw [if_pos hfill]
      have hpl : pre.length < size := by omega
      have hc0 : w.curr_first_index = 0 := by omega
      have hbuf : buf = pre := by rw [h3, hc0, List.drop_zero]
      have hmp := ih (pre ++ [l]) (pushBack size buf l)
        (w.fix (st.toggle l.must_display pre.length))
        (st.toggle l.must_display pre.length)
        (by rw [fix_goal, fix_curr]; exact h1)
        (by rw [fix_curr, hc0, hlen1]; omega)
        (by rw [pushBack_of_lt size buf l hfill, hbuf, fix_curr, hc0,
              List.drop_zero])
        hfixw h5'
        (by intro s _; rw [fix_curr, hc0]; exact Nat.zero_le s)
      rw [hlen1, hitems] at hmp
      exact MasterPost_mono (Nat.le_succ _) hmp
    · rw [if_neg hfill]
      have hsle : size ≤ pre.length := by omega
      have hmin : min pre.length size = size := by omega
      have hcurr : w.curr_first_index = pre.length - size := by omega
      split
      case _ hst =>
        -- state NotSeen after this line
        rw [hst]
        rw [hst] at h5' hfixw
        have hftnone : firstTrue (pre ++ [l]) = none := h5'
        have hfxnone : (w.fix SelState.NotSeen).fixed = none := by
          rw [hfixw, hftnone]
        have hpush : pushBack size buf l
            = (pre ++ [l]).drop (w.curr_first_index + 1) := by
          by_cases hsz : size = 0
          · rw [hsz, pushBack_zero]
            rw [h3]
            have : pre.length ≤ w.curr_first_index := by omega
            rw [List.drop_eq_nil_of_le this,
              List.drop_eq_nil_of_le (by rw [hlen1]; omega)]
          · rw [pushBack_of_full size buf l hsz hfill, h3,
              List.drop_drop 1 w.curr_first_index pre,
              drop_append_small pre [l] (w.curr_first_index + 1) (by omega)]
        have hmp := ih (pre ++ [l]) (pushBack size buf l)
          (w.fix SelState.NotSeen).advance SelState.NotSeen
          (by
            apply advance_goal_max
            rw [fix_goal, fix_curr]
            exact h1)
          (by rw [advance_curr, fix_curr, hcurr, hlen1]; omega)
          (by rw [hpush, advance_curr, fix_curr])
          (by rw [advance_fixed]; exact hfixw)
          h5'
          (by
            intro s hs
            rw [advance_fixed, hfxnone] at hs
            cases hs)
        rw [hlen1, hitems] at hmp
        exact MasterPost_mono (Nat.le_succ _) hmp
      case _ j hst =>
        -- state Started j after this line
        rw [hst]
        rw [hst] at h5' hfixw
        have hftj : firstTrue (pre ++ [l]) = some j := h5'
        have hfixj : (w.fix (SelState.Started j)).fixed = some j := by
          rw [hfixw, hftj]
        have hcurrj : w.curr_first_index ≤ j := by
          cases hf : w.fixed with
          | some x =>
            have hx : firstTrue (pre ++ [l]) = some x :=
              firstTrue_append_of_some pre [l] x (by rw [← h4]; exact hf)
            have hxj : x = j := Option.some.inj (hx.symm.trans hftj)
            exact hxj ▸ h6 x hf
          | none =>
            have hnone : firstTrue pre = none := by rw [← h4]; exact hf
            have this : firstTrue (pre ++ [l])
                = if l.must_display = true then some (0 + pre.length) else none :=
              firstTrueFrom_append_one_of_none pre l 0 hnone
            rw [hftj] at this
            by_cases hd : l.must_display = true
            · rw [if_pos hd] at this
              have : j = pre.length := by
                have := Option.some.inj this.symm
                omega
              omega
            · rw [if_neg hd] at this
              cases this
        have hpush : pushBack size buf l
            = (pre ++ [l]).drop (w.curr_first_index + 1) := by
          by_cases hsz : size = 0
          · rw [hsz, pushBack_zero]
            rw [h3]
            have : pre.length ≤ w.curr_first_index := by omega
            rw [List.drop_eq_nil_of_le this,
              List.drop_eq_nil_of_le (by rw [hlen1]; omega)]
          · rw [pushBack_of_full size buf l hsz hfill, h3,
              List.drop_drop 1 w.curr_first_index pre,
              drop_append_small pre [l] (w.curr_first_index + 1) (by omega)]
        by_cases hca : (w.fix (SelState.Started j)).can_advance = true
        · rw [if_pos hca]
          have hlt : w.curr_first_index < j := by
            have := (can_advance_iff _ j hfixj).mp hca
            rwa [fix_curr] at this
          have hmp := ih (pre ++ [l]) (pushBack size buf l)
            (w.fix (SelState.Started j)).advance (SelState.Started j)
            (by
              apply advance_goal_max
              rw [fix_goal, fix_curr]
              exact h1)
            (by rw [advance_curr, fix_curr, hcurr, hlen1]; omega)
            (by rw [hpush, advance_curr, fix_curr])
            (by rw [advance_fixed]; exact hfixw)
            h5'
            (by
              intro s hs
              rw [advance_fixed, hfixj] at hs
              have hsj : j = s := Option.some.inj hs
              rw [advance_curr, fix_curr]
              omega)
          rw [hlen1, hitems] at hmp
          exact MasterPost_mono (Nat.le_succ _) hmp
        · rw [if_neg hca]
          have hge : j ≤ w.curr_first_index := by
            have hiff := can_advance_iff (w.fix (SelState.Started j)) j hfixj
            rw [fix_curr] at hiff
            by_contra hc
            exact hca (hiff.mpr (by omega))
          have hglobal : firstTrue (pre ++ l :: rest) = some j := by
            rw [← hitems]
            exact firstTrue_append_of_some (pre ++ [l]) rest j hftj
          simp only [MasterPost]
          refine ⟨?_, ?_, ?_, le_refl _, ?_, ?_, ?_, ?_⟩
          · rw [fix_goal, fix_curr]; exact h1
          · rw [fix_curr]; exact h2
          · rw [fix_curr]
            have : (pre ++ l :: rest).take pre.length = pre :=
              List.take_left pre (l :: rest)
            rw [this]
            exact h3
          · simp
          · intro s hs
            rw [hfixj] at hs
            have hsj : j = s := Option.some.inj hs
            subst hsj
            exact ⟨by rw [fix_curr]; exact hcurrj, hglobal⟩
          · intro s hs hsz
            have hsj : s = j := Option.some.inj (hglobal.symm.trans hs).symm
            subst hsj
            refine ⟨hfixj, ?_⟩
            cases hf : w.fixed with
            | some x =>
              have hx : firstTrue pre = some x := by rw [← h4]; exact hf
              have hx' : firstTrue (pre ++ [l]) = some x :=
                firstTrue_append_of_some pre [l] x hx
              have hxj : x = s := Option.some.inj (hx'.symm.trans hftj)
              subst hxj
              exact firstTrue_bound pre x hx
            | none =>
              exfalso
              have hnone : firstTrue pre = none := by rw [← h4]; exact hf
              have this : firstTrue (pre ++ [l])
                  = if l.must_display = true then some (0 + pre.length) else none :=
                firstTrueFrom_append_one_of_none pre l 0 hnone
              rw [hftj] at this
              by_cases hd : l.must_display = true
              · rw [if_pos hd] at this
                have hj : s = pre.length := by
                  have := Option.some.inj this.symm
                  omega
                omega
              · rw [if_neg hd] at this
                cases this
          · exact Or.inr (Or.inl ⟨j, hfixj, by rw [fix_curr]; exact hge⟩)
      case _ hst =>
        -- state Complete after this line
        rw [hst]
        rw [hst] at h5' hfixw
        rw [fix_complete] at hfixw
        obtain ⟨x, jw, lw, hx, hxj, hjget, hjflag⟩ := h5'
        have hwfx : w.fixed = some x := by rw [hfixw, hx]
        have hcx : w.curr_first_index ≤ x := h6 x hwfx
        have hxpre : x < pre.length := by
          have hpx : firstTrue pre = some x := by rw [← h4]; exact hwfx
          exact firstTrue_bound pre x hpx
        have hjlt : jw < pre.length + 1 := by
          rw [List.getElem?_eq_some] at hjget
          have := hjget.1
          rwa [hlen1] at this
        have hglobal : firstTrue (pre ++ l :: rest) = some x := by
          rw [← hitems]
          exact firstTrue_append_of_some (pre ++ [l]) rest x hx
        have hjglobal : (pre ++ l :: rest)[jw]? = some lw := by
          rw [← hitems]
          rw [List.getElem?_append_left (by rw [hlen1]; omega)]
          exact hjget
        have hrel : StRel (pre ++ [l]) SelState.Complete :=
          ⟨x, jw, lw, hx, hxj, hjget, hjflag⟩
        rw [fix_complete]
        by_cases hal : w.is_aligned = true
        · rw [if_pos hal]
          simp only [MasterPost]
          refine ⟨h1, h2, ?_, le_refl _, by simp, ?_, ?_, ?_⟩
          · have : (pre ++ l :: rest).take pre.length = pre :=
              List.take_left pre (l :: rest)
            rw [this]
            exact h3
          · intro s hs
            have hsx : x = s := Option.some.inj (hwfx.symm.trans hs)
            subst hsx
            exact ⟨hcx, hglobal⟩
          · intro s hs _
            have hsx : s = x := Option.some.inj (hglobal.symm.trans hs).symm
            subst hsx
            exact ⟨hwfx, by omega⟩
          · refine Or.inr (Or.inr ⟨x, jw, lw, hwfx, hxj, by omega, hjglobal,
              hjflag, ?_⟩)
            exact (is_aligned_iff w).mp hal
        · rw [if_neg hal]
          have hpush : pushBack size buf l
              = (pre ++ [l]).drop (w.curr_first_index + 1) := by
            by_cases hsz : size = 0
            · rw [hsz, pushBack_zero]
              rw [h3]
              have : pre.length ≤ w.curr_first_index := by omega
              rw [List.drop_eq_nil_of_le this,
                List.drop_eq_nil_of_le (by rw [hlen1]; omega)]
            · rw [pushBack_of_full size buf l hsz hfill, h3,
                List.drop_drop 1 w.curr_first_index pre,
                drop_append_small pre [l] (w.curr_first_index + 1) (by omega)]
          by_cases hca : w.can_advance = true
          · rw [if_pos hca]
            have hlt : w.curr_first_index < x := (can_advance_iff w x hwfx).mp hca
            have hmp := ih (pre ++ [l]) (pushBack size buf l)
              w.advance SelState.Complete
              (advance_goal_max w p h1)
              (by rw [advance_curr, hcurr, hlen1]; omega)
              (by rw [hpush, advance_curr])
              (by rw [advance_fixed]; exact hfixw)
              hrel
              (by
                intro s hs
                rw [advance_fixed, hwfx] at hs
                have hsx : x = s := Option.some.inj hs
                rw [advance_curr]
                omega)
            rw [hlen1, hitems] at hmp
            exact MasterPost_mono (Nat.le_succ _) hmp
          · rw [if_neg hca]
            have hge : x ≤ w.curr_first_index := by
              have hiff := can_advance_iff w x hwfx
              by_contra hc
              exact hca (hiff.mpr (by omega))
            simp only [MasterPost]
            refine ⟨h1, h2, ?_, le_refl _, by simp, ?_, ?_, ?_⟩
            · have : (pre ++ l :: rest).take pre.length = pre :=
                List.take_left pre (l :: rest)
              rw [this]
              exact h3
            · intro s hs
              have hsx : x = s := Option.some.inj (hwfx.symm.trans hs)
              subst hsx
              exact ⟨hcx, hglobal⟩
            · intro s hs _
              have hsx : s = x := Option.some.inj (hglobal.symm.trans hs).symm
              subst hsx
              exact ⟨hwfx, by omega⟩
            · exact Or.inr (Or.inl ⟨x, hwfx, hge⟩)

end ViewportModel

namespace ViewportModel

lemma scrollRun_master {α : Type} (items : List (DisplayLine α)) (size p : Nat) :
    MasterPost size p items 0 (scrollRun items size p) := by
  have h := scrollLoop_master size p items [] [] (Window.new size p)
    SelState.NotSeen
    (by simp [Window.new])
    (by simp [Window.new])
    (by simp [Window.new])
    (by rfl)
    (by rfl)
    (by intro s hs; exact absurd hs (by simp [Window.new]))
  simpa using h

/-- C4: the number of lines yielded by `selection_scroll` is at most `size`,
for every input, window size, and previous position. -/
theorem claim_C4 {α : Type} (items : List (DisplayLine α)) (size p : Nat) :
    (selection_scroll items size p).length ≤ size := by
  obtain ⟨c1, c2, c3, c4, c5, c6, c7, c8⟩ := scrollRun_master items size p
  have hres : selection_scroll items size p = (scrollRun items size p).buffer := rfl
  rw [hres, c3, List.length_drop, List.length_take]
  omega

/-- C8: the result of `selection_scroll` is a contiguous slice of the input:
it equals the input lines starting at some index `f`, in original order and
carrying their original `must_display` flags. -/
theorem claim_C8 {α : Type} (items : List (DisplayLine α)) (size p : Nat) :
    ∃ f, selection_scroll items size p =
      (items.drop f).take (selection_scroll items size p).length := by
  obtain ⟨c1, c2, c3, c4, c5, c6, c7, c8⟩ := scrollRun_master items size p
  refine ⟨(scrollRun items size p).window.curr_first_index, ?_⟩
  have hres : selection_scroll items size p = (scrollRun items size p).buffer := rfl
  rw [hres, c3, List.drop_take]
  congr 1
  rw [List.length_take, List.length_drop]
  omega

lemma firstTrueFrom_none_of_all_false {α : Type} :
    ∀ (xs : List (DisplayLine α)) (i : Nat),
      (∀ l ∈ xs, l.must_display = false) → firstTrueFrom i xs = none := by
  intro xs
  induction xs with
  | nil => intro i _; rfl
  | cons x xs ih =>
    intro i h
    simp only [firstTrueFrom]
    rw [if_neg (by simp [h x (by simp)])]
    exact ih (i + 1) (fun l hl => h l (by simp [hl]))

/-- C1 as stated is false: the claim says that with no selected line the
result is the first `size` lines, but on the two-line unselected input with
`size = 1` the code returns the second line, not the first. -/
theorem claim_C1_counterexample :
    ¬ (selection_scroll
        ([⟨0, false⟩, ⟨1, false⟩] : List (DisplayLine Nat)) 1 0
      = ([⟨0, false⟩, ⟨1, false⟩] : List (DisplayLine Nat)).take 1) := by
  decide

/-- C1 amended: when no input line has `must_display = true`, the `NotSeen`
branch advances the window on every line once the buffer is full, so
`selection_scroll` returns the LAST `size` lines of the input — the whole
input when it is shorter than `size` — for every `prev_pos`. -/
theorem claim_C1_amended {α : Type} (items : List (DisplayLine α))
    (size p : Nat) (h : ∀ l ∈ items, l.must_display = false) :
    selection_scroll items size p = items.drop (items.length - size) := by
  obtain ⟨c1, c2, c3, c4, c5, c6, c7, c8⟩ := scrollRun_master items size p
  have hnone : firstTrue items = none :=
    firstTrueFrom_none_of_all_false items 0 h
  have hstop : (scrollRun items size p).stop_index = items.length := by
    rcases c8 with hh | ⟨s, hs, _⟩ | ⟨s, _, _, hs, _⟩
    · exact hh
    · have := (c6 s hs).2
      rw [hnone] at this
      cases this
    · have := (c6 s hs).2
      rw [hnone] at this
      cases this
  have hres : selection_scroll items size p = (scrollRun items size p).buffer := rfl
  rw [hres, c3, hstop, List.take_length]
  congr 1
  rw [c2, hstop]
  omega

/-- Witness for C1 amended, at the two-line unselected input. -/
theorem claim_C1_witness :
    (∀ l ∈ ([⟨0, false⟩, ⟨1, false⟩] : List (DisplayLine Nat)),
      l.must_display = false) ∧
    selection_scroll ([⟨0, false⟩, ⟨1, false⟩] : List (DisplayLine Nat)) 1 0
      = ([⟨0, false⟩, ⟨1, false⟩] : List (DisplayLine Nat)).drop
          (([⟨0, false⟩, ⟨1, false⟩] : List (DisplayLine Nat)).length - 1) :=
  ⟨by decide, claim_C1_amended ([⟨0, false⟩, ⟨1, false⟩] : List (DisplayLine Nat))
    1 0 (by decide)⟩

end ViewportModel

namespace ViewportModel

/-- C3: when some input line is selected (the first such index being `s`),
the result of `selection_scroll` contains the line at index `s`: the final
viewport's first index is at most `s`, and the result holds the input's line
`s` at offset `s - first`, hence as a member. -/
theorem claim_C3 {α : Type} (items : List (DisplayLine α)) (size p s : Nat)
    (hft : firstTrue items = some s) (hsz : 1 ≤ size) :
    (scrollRun items size p).window.curr_first_index ≤ s ∧
    ∃ l, items[s]? = some l ∧
      (selection_scroll items size p)[s -
        (scrollRun items size p).window.curr_first_index]? = some l ∧
      l ∈ selection_scroll items size p := by
  obtain ⟨c1, c2, c3, c4, c5, c6, c7, c8⟩ := scrollRun_master items size p
  obtain ⟨hfix, hslt⟩ := c7 s hft hsz
  obtain ⟨hcle, _⟩ := c6 s hfix
  have hsn : s < items.length := firstTrue_bound items s hft
  obtain ⟨lv, hlv⟩ : ∃ lv, items[s]? = some lv := by
    rw [List.getElem?_eq_getElem hsn]
    exact ⟨_, rfl⟩
  have hres : selection_scroll items size p = (scrollRun items size p).buffer := rfl
  have hgot : (selection_scroll items size p)[s -
      (scrollRun items size p).window.curr_first_index]? = some lv := by
    rw [hres, c3, List.getElem?_drop]
    have harith : (scrollRun items size p).window.curr_first_index +
        (s - (scrollRun items size p).window.curr_first_index) = s := by omega
    rw [harith, List.getElem?_take_of_lt hslt]
    exact hlv
  exact ⟨hcle, lv, hlv, hgot, List.getElem?_mem hgot⟩

/-- Witness for C3 on the singleton selected input. -/
theorem claim_C3_witness :
    (firstTrue ([⟨0, true⟩] : List (DisplayLine Nat)) = some 0 ∧ 1 ≤ 1) ∧
    ((scrollRun ([⟨0, true⟩] : List (DisplayLine Nat)) 1 0).window.curr_first_index ≤ 0 ∧
    ∃ l, ([⟨0, true⟩] : List (DisplayLine Nat))[0]? = some l ∧
      (selection_scroll ([⟨0, true⟩] : List (DisplayLine Nat)) 1 0)[0 -
        (scrollRun ([⟨0, true⟩] : List (DisplayLine Nat)) 1 0).window.curr_first_index]? = some l ∧
      l ∈ selection_scroll ([⟨0, true⟩] : List (DisplayLine Nat)) 1 0) :=
  ⟨⟨by decide, by decide⟩,
    claim_C3 ([⟨0, true⟩] : List (DisplayLine Nat)) 1 0 0 (by decide) (by decide)⟩

end ViewportModel

namespace ViewportModel

lemma firstTrueFrom_eq_of_flags {α : Type} :
    ∀ (xs : List (DisplayLine α)) (i m : Nat),
      (∃ lm, xs[m]? = some lm ∧ lm.must_display = true) →
      (∀ j lj, j < m → xs[j]? = some lj → lj.must_display = false) →
      firstTrueFrom i xs = some (i + m) := by
  intro xs
  induction xs with
  | nil =>
    intro i m hm _
    obtain ⟨lm, hget, _⟩ := hm
    exact absurd hget (by simp)
  | cons x xs ih =>
    intro i m hm hb
    obtain ⟨lm, hget, hflag⟩ := hm
    cases m with
    | zero =>
      have hx : lm = x := by
        rw [List.getElem?_cons_zero] at hget
        exact (Option.some.inj hget).symm
      subst hx
      simp only [firstTrueFrom]
      rw [if_pos hflag, Nat.add_zero]
    | succ m =>
      have hx : x.must_display = false :=
        hb 0 x (Nat.succ_pos m) (by rw [List.getElem?_cons_zero])
      simp only [firstTrueFrom]
      rw [if_neg (by simp [hx])]
      have hrec := ih (i + 1) m
        ⟨lm, by rwa [List.getElem?_cons_succ] at hget, hflag⟩
        (fun j lj hj hg =>
          hb (j + 1) lj (by omega) (by rwa [List.getElem?_cons_succ]))
      rw [hrec]
      congr 1
      omega

/-- C2: when the `must_display` flags form a single contiguous run from `s`
to `e` whose length exceeds `size`, the first element of the result is
exactly the line at the run's start `s`, for every value of `prev_pos`. -/
theorem claim_C2 {α : Type} (items : List (DisplayLine α)) (size p s e : Nat)
    (hse : s ≤ e) (hen : e < items.length)
    (hflag : ∀ j (hj : j < items.length),
      ((items.get ⟨j, hj⟩).must_display = true ↔ s ≤ j ∧ j ≤ e))
    (hrun : size < e + 1 - s) (hsz : 1 ≤ size) :
    (selection_scroll items size p).head? = items[s]? := by
  have hflag' : ∀ j lj, items[j]? = some lj →
      (lj.must_display = true ↔ s ≤ j ∧ j ≤ e) := by
    intro j lj hget
    have hj : j < items.length := by
      rw [List.getElem?_eq_some] at hget
      exact hget.1
    have hval : items.get ⟨j, hj⟩ = lj := by
      have := List.getElem?_eq_getElem hj
      rw [hget] at this
      have := Option.some.inj this
      rw [List.get_eq_getElem]
      exact this.symm
    rw [← hval]
    exact hflag j hj
  have hsn : s < items.length := by omega
  obtain ⟨ls, hls⟩ : ∃ ls, items[s]? = some ls := by
    rw [List.getElem?_eq_getElem hsn]
    exact ⟨_, rfl⟩
  have hlsflag : ls.must_display = true :=
    (hflag' s ls hls).mpr ⟨le_refl s, hse⟩
  have hft : firstTrue items = some s := by
    have := firstTrueFrom_eq_of_flags items 0 s ⟨ls, hls, hlsflag⟩
      (fun j lj hj hget => by
        cases hval : lj.must_display with
        | false => rfl
        | true =>
          have := (hflag' j lj hget).mp hval
          omega)
    rw [firstTrue, this]
    congr 1
    omega
  obtain ⟨c1, c2, c3, c4, c5, c6, c7, c8⟩ := scrollRun_master items size p
  obtain ⟨hfix, hslt⟩ := c7 s hft hsz
  obtain ⟨hcle, _⟩ := c6 s hfix
  have hcurr : (scrollRun items size p).window.curr_first_index = s := by
    rcases c8 with hh | ⟨x, hx, hxle⟩ | ⟨x, j, lf, hx, hxj, hjstop, hjget, hjflag, _⟩
    · exfalso
      rw [hh] at c2
      omega
    · have hxs : x = s := Option.some.inj (hx.symm.trans hfix)
      subst hxs
      omega
    · exfalso
      have hxs : x = s := Option.some.inj (hx.symm.trans hfix)
      have hnotrun : ¬ (s ≤ j ∧ j ≤ e) := by
        intro hcontra
        have := (hflag' j lf hjget).mpr hcontra
        rw [hjflag] at this
        cases this
      omega
  have hres : selection_scroll items size p = (scrollRun items size p).buffer := rfl
  rw [hres, c3, List.head?_eq_getElem?, List.getElem?_drop, Nat.add_zero,
    List.getElem?_take_of_lt (by omega), hcurr]

/-- Witness for C2: five lines with the run `{1,2,3}` and window size 2;
the result starts at line 1. -/
theorem claim_C2_witness :
    (1 ≤ 3 ∧ 3 < 5 ∧ 2 < 3 + 1 - 1 ∧ 1 ≤ 2) ∧
    (selection_scroll
      ([⟨0, false⟩, ⟨1, true⟩, ⟨2, true⟩, ⟨3, true⟩, ⟨4, false⟩] :
        List (DisplayLine Nat)) 2 0).head?
      = ([⟨0, false⟩, ⟨1, true⟩, ⟨2, true⟩, ⟨3, true⟩, ⟨4, false⟩] :
        List (DisplayLine Nat))[1]? :=
  ⟨⟨by decide, by decide, by decide, by decide⟩,
    claim_C2
      ([⟨0, false⟩, ⟨1, true⟩, ⟨2, true⟩, ⟨3, true⟩, ⟨4, false⟩] :
        List (DisplayLine Nat))
      2 0 1 3 (by decide) (by decide) (by decide) (by decide) (by decide)⟩

end ViewportModel

namespace ViewportModel

lemma fix_fixed_congr (w1 w2 : Window) (st : SelState) (h : w1.fixed = w2.fixed) :
    (w1.fix st).fixed = (w2.fix st).fixed := by
  cases st with
  | Started j =>
    cases hf : w1.fixed with
    | none =>
      rw [fix_fixed_none_started w1 j hf,
        fix_fixed_none_started w2 j (by rw [← h]; exact hf)]
    | some x =>
      rw [fix_fixed_of_some w1 _ x hf,
        fix_fixed_of_some w2 _ x (by rw [← h]; exact hf)]
  | NotSeen => rw [fix_notseen, fix_notseen]; exact h
  | Complete => rw [fix_complete, fix_complete]; exact h

lemma can_advance_congr (w1 w2 : Window)
    (hc : w1.curr_first_index = w2.curr_first_index)
    (hf : w1.fixed = w2.fixed) : w1.can_advance = w2.can_advance := by
  simp only [Window.can_advance, hf, hc]

lemma scrollLoop_curr_le {α : Type} (size : Nat) :
    ∀ (rest : List (DisplayLine α)) (i : Nat) (w : Window) (st : SelState)
      (buf : List (DisplayLine α)),
      w.curr_first_index ≤
        (scrollLoop size rest i w st buf).window.curr_first_index := by
  intro rest
  induction rest with
  | nil => intro i w st buf; exact le_refl _
  | cons l rest ih =>
    intro i w st buf
    simp only [scrollLoop]
    by_cases hfill : buf.length < size
    · rw [if_pos hfill]
      have := ih (i + 1) (w.fix (st.toggle l.must_display i))
        (st.toggle l.must_display i) (pushBack size buf l)
      rw [fix_curr] at this
      exact this
    · rw [if_neg hfill]
      split
      · have := ih (i + 1) (w.fix (st.toggle l.must_display i)).advance
          (st.toggle l.must_display i) (pushBack size buf l)
        rw [advance_curr, fix_curr] at this
        omega
      · by_cases hca : (w.fix (st.toggle l.must_display i)).can_advance = true
        · rw [if_pos hca]
          have := ih (i + 1) (w.fix (st.toggle l.must_display i)).advance
            (st.toggle l.must_display i) (pushBack size buf l)
          rw [advance_curr, fix_curr] at this
          omega
        · rw [if_neg hca]
          simp [fix_curr]
      · by_cases hal : (w.fix (st.toggle l.must_display i)).is_aligned = true
        · rw [if_pos hal]
          simp [fix_curr]
        · rw [if_neg hal]
          by_cases hca : (w.fix (st.toggle l.must_display i)).can_advance = true
          · rw [if_pos hca]
            have := ih (i + 1) (w.fix (st.toggle l.must_display i)).advance
              (st.toggle l.must_display i) (pushBack size buf l)
            rw [advance_curr, fix_curr] at this
            omega
          · rw [if_neg hca]
            simp [fix_curr]

lemma scrollLoop_sim {α : Type} (size p q : Nat) :
    ∀ (rest : List (DisplayLine α)) (i : Nat) (w1 w2 : Window) (st : SelState)
      (buf : List (DisplayLine α)),
      w1.curr_first_index = w2.curr_first_index →
      w1.fixed = w2.fixed →
      w1.goal_first_index = max p w1.curr_first_index →
      w2.goal_first_index = max q w2.curr_first_index →
      (scrollLoop size rest i w1 st buf).window.curr_first_index = q →
      (scrollLoop size rest i w2 st buf).buffer
        = (scrollLoop size rest i w1 st buf).buffer := by
  intro rest
  induction rest with
  | nil => intro i w1 w2 st buf _ _ _ _ _; rfl
  | cons l rest ih =>
    intro i w1 w2 st buf hc hf h1 h2 hq
    simp only [scrollLoop] at hq ⊢
    by_cases hfill : buf.length < size
    · rw [if_pos hfill] at hq
      rw [if_pos hfill, if_pos hfill]
      exact ih (i + 1) _ _ _ _
        (by rw [fix_curr, fix_curr]; exact hc)
        (fix_fixed_congr w1 w2 _ hf)
        (by rw [fix_goal, fix_curr]; exact h1)
        (by rw [fix_goal, fix_curr]; exact h2) hq
    · rw [if_neg hfill] at hq
      rw [if_neg hfill, if_neg hfill]
      cases hst : st.toggle l.must_display i with
      | NotSeen =>
        simp only [hst, fix_notseen] at hq ⊢
        exact ih (i + 1) _ _ _ _
          (by rw [advance_curr, advance_curr, hc])
          (by rw [advance_fixed, advance_fixed]; exact hf)
          (advance_goal_max w1 p h1)
          (advance_goal_max w2 q h2) hq
      | Started j =>
        simp only [hst] at hq ⊢
        have hcacongr : (w1.fix (SelState.Started j)).can_advance
            = (w2.fix (SelState.Started j)).can_advance :=
          can_advance_congr _ _ (by rw [fix_curr, fix_curr]; exact hc)
            (fix_fixed_congr w1 w2 _ hf)
        by_cases hca : (w1.fix (SelState.Started j)).can_advance = true
        · rw [if_pos hca] at hq
          rw [if_pos hca, if_pos (by rw [← hcacongr]; exact hca)]
          exact ih (i + 1) _ _ _ _
            (by rw [advance_curr, advance_curr, fix_curr, fix_curr, hc])
            (by rw [advance_fixed, advance_fixed]
                exact fix_fixed_congr w1 w2 _ hf)
            (advance_goal_max _ p (by rw [fix_goal, fix_curr]; exact h1))
            (advance_goal_max _ q (by rw [fix_goal, fix_curr]; exact h2)) hq
        · rw [if_neg hca, if_neg (by rw [← hcacongr]; exact hca)]
      | Complete =>
        simp only [hst, fix_complete] at hq ⊢
        by_cases hal1 : w1.is_aligned = true
        · rw [if_pos hal1] at hq
          have hw1q : w1.curr_first_index = q := hq
          have hal2 : w2.is_aligned = true := by
            rw [is_aligned_iff, h2]
            have hw2q : w2.curr_first_index = q := by rw [← hc, hw1q]
            rw [hw2q]
            exact Nat.max_self q
          rw [if_pos hal1, if_pos hal2]
        · rw [if_neg hal1] at hq
          by_cases hal2 : w2.is_aligned = true
          · rw [if_pos hal2, if_neg hal1]
            by_cases hca1 : w1.can_advance = true
            · exfalso
              rw [if_pos hca1] at hq
              have hmono := scrollLoop_curr_le size rest (i + 1) w1.advance
                SelState.Complete (pushBack size buf l)
              rw [advance_curr, hq] at hmono
              have hq2 : q ≤ w2.curr_first_index := by
                have := (is_aligned_iff w2).mp hal2
                rw [h2] at this
                omega
              omega
            · rw [if_neg hca1]
          · rw [if_neg hal2, if_neg hal1]
            have hcacongr : w1.can_advance = w2.can_advance :=
              can_advance_congr w1 w2 hc hf
            by_cases hca1 : w1.can_advance = true
            · rw [if_pos hca1] at hq
              rw [if_pos hca1, if_pos (by rw [← hcacongr]; exact hca1)]
              exact ih (i + 1) _ _ _ _
                (by rw [advance_curr, advance_curr, hc])
                (by rw [advance_fixed, advance_fixed]; exact hf)
                (advance_goal_max w1 p h1)
                (advance_goal_max w2 q h2) hq
            · rw [if_neg hca1, if_neg (by rw [← hcacongr]; exact hca1)]

/-- C5: scroll stability. The first pass's result is the input slice that
starts at the final window position `f`; re-running `selection_scroll` on
the same input (unchanged selection) with `prev_pos = f` reproduces exactly
the same slice. -/
theorem claim_C5 {α : Type} (items : List (DisplayLine α)) (size p : Nat)
    (hsz : 1 ≤ size) :
    selection_scroll items size p =
      (items.drop (scrollRun items size p).window.curr_first_index).take
        (selection_scroll items size p).length ∧
    selection_scroll items size
        (scrollRun items size p).window.curr_first_index
      = selection_scroll items size p := by
  constructor
  · obtain ⟨c1, c2, c3, c4, c5, c6, c7, c8⟩ := scrollRun_master items size p
    have hres : selection_scroll items size p
        = (scrollRun items size p).buffer := rfl
    rw [hres, c3, List.drop_take]
    congr 1
    rw [List.length_take, List.length_drop]
    omega
  · exact scrollLoop_sim size p
      (scrollRun items size p).window.curr_first_index items 0
      (Window.new size p)
      (Window.new size (scrollRun items size p).window.curr_first_index)
      SelState.NotSeen [] rfl rfl
      (by simp [Window.new]) (by simp [Window.new]) rfl

/-- Witness for C5 on a two-line input with the first line selected. -/
theorem claim_C5_witness :
    1 ≤ 1 ∧
    (selection_scroll ([⟨0, true⟩, ⟨1, false⟩] : List (DisplayLine Nat)) 1 0 =
      (([⟨0, true⟩, ⟨1, false⟩] : List (DisplayLine Nat)).drop
        (scrollRun ([⟨0, true⟩, ⟨1, false⟩] : List (DisplayLine Nat)) 1
          0).window.curr_first_index).take
        (selection_scroll ([⟨0, true⟩, ⟨1, false⟩] :
          List (DisplayLine Nat)) 1 0).length ∧
    selection_scroll ([⟨0, true⟩, ⟨1, false⟩] : List (DisplayLine Nat)) 1
        (scrollRun ([⟨0, true⟩, ⟨1, false⟩] : List (DisplayLine Nat)) 1
          0).window.curr_first_index
      = selection_scroll ([⟨0, true⟩, ⟨1, false⟩] :
          List (DisplayLine Nat)) 1 0) :=
  ⟨by decide,
    claim_C5 ([⟨0, true⟩, ⟨1, false⟩] : List (DisplayLine Nat)) 1 0 (by decide)⟩

end ViewportModel
